import Mathlib

/-!
Shallow embedding of the shopping-list application in `src/src/App.tsx`.

The component state (`items`, `archivedItems`, `editingItem`, `alert`,
`showArchived`, `newItem`) becomes an `AppState` record; each event handler
becomes a pure function `AppState → AppState`.  The only external effect,
`Date.now()` in `addItem`, is modelled as an explicit `now : Nat` argument:
the environment supplies the clock reading, the code does not control it.
JavaScript numbers are modelled as `Rat` (prices and quantities), item ids as
`Nat`, and `String.prototype.toLowerCase` as `jsToLower`.
The 3-second self-clearing alert timer is real time and is not modelled;
surfacing an alert is modelled as setting the `alert` field.
-/

namespace Pardinho

/-- The `Item` interface of `App.tsx` (id, nome, quantidade, preco,
categoria, sugeridoPor). -/
structure Item where
  id : Nat
  nome : String
  quantidade : Rat
  preco : Rat
  categoria : String
  sugeridoPor : String
deriving DecidableEq

/-- The shape of the `newItem` draft state: `Omit<Item, 'id'>`. -/
structure Draft where
  nome : String
  quantidade : Rat
  preco : Rat
  categoria : String
  sugeridoPor : String
deriving DecidableEq

/-- The initial value of the `newItem` state in `App.tsx` (nome: '',
quantidade: 1, preco: 0, categoria: '', sugeridoPor: ''), which is also the
value the draft is reset to after a successful add. -/
def defaultDraft : Draft :=
  { nome := "", quantidade := 1, preco := 0, categoria := "", sugeridoPor := "" }

/-- The whole component state of `App.tsx`. -/
structure AppState where
  items : List Item
  archivedItems : List Item
  editingItem : Option Item
  alert : Option String
  showArchived : Bool
  newItem : Draft
deriving DecidableEq

/-- The initial state: all `useState` initial values. -/
def initialState : AppState :=
  { items := [], archivedItems := [], editingItem := none, alert := none,
    showArchived := false, newItem := defaultDraft }

/-- Model of `String.prototype.toLowerCase` as used by the duplicate checks:
lower-cases every character (written structurally over the character list so
that it reduces; extensionally this is `String.map Char.toLower`). -/
def jsToLower (s : String) : String := String.mk (s.data.map Char.toLower)

/-- `showAlert`: sets the transient alert message (the 3-second clearing
timer is not modelled). -/
def showAlert (msg : String) (s : AppState) : AppState := { s with alert := some msg }

/-- The item built by a successful add: `{ ...newItem, id: Date.now() }`. -/
def mkNewItem (now : Nat) (d : Draft) : Item :=
  { id := now, nome := d.nome, quantidade := d.quantidade, preco := d.preco,
    categoria := d.categoria, sugeridoPor := d.sugeridoPor }

/-- `addItem` from `App.tsx`, with `Date.now()` passed in as `now`.
Validation: `!newItem.nome || newItem.preco <= 0` rejects with the fill-in
alert; then a case-insensitive name collision against `items` rejects with
the duplicate alert; otherwise the new item is appended and the draft reset. -/
def addItem (now : Nat) (s : AppState) : AppState :=
  if s.newItem.nome = "" ∨ s.newItem.preco ≤ 0 then
    showAlert "Por favor, preencha o nome e o preço do item." s
  else if s.items.any (fun item => jsToLower item.nome == jsToLower s.newItem.nome) then
    showAlert "Este item já existe na lista!" s
  else
    { s with items := s.items ++ [mkNewItem now s.newItem], newItem := defaultDraft }

/-- `archiveItem` from `App.tsx`: find the item by id in the active list; if
found, append it to the archived list and filter it out of the active list;
otherwise do nothing. -/
def archiveItem (id : Nat) (s : AppState) : AppState :=
  match s.items.find? (fun i => i.id == id) with
  | some item =>
      { s with archivedItems := s.archivedItems ++ [item],
               items := s.items.filter (fun i => i.id != id) }
  | none => s

/-- `startEditing` from `App.tsx`: seed the edit draft with the given item. -/
def startEditing (item : Item) (s : AppState) : AppState :=
  { s with editingItem := some item }

/-- `saveEdit` from `App.tsx`: when an edit is in progress, reject on a
case-insensitive name collision with a different-id active item, else
replace every active item whose id matches the draft by the draft and leave
edit mode. -/
def saveEdit (s : AppState) : AppState :=
  match s.editingItem with
  | some e =>
      if s.items.any (fun item => item.id != e.id &&
          (jsToLower item.nome == jsToLower e.nome)) then
        showAlert "Já existe outro item com este nome!" s
      else
        { s with items := s.items.map (fun item => if item.id = e.id then e else item),
                 editingItem := none }
  | none => s

/-- `cancelEdit` from `App.tsx`. -/
def cancelEdit (s : AppState) : AppState := { s with editingItem := none }

/-- `calculateTotal` from `App.tsx`: reduce over the active list of
`total + preco * quantidade` starting from 0. -/
def calculateTotal (s : AppState) : Rat :=
  s.items.foldl (fun total item => total + item.preco * item.quantidade) 0

/-- The `onChange` handler of the new-item name input. -/
def setNewNome (v : String) (s : AppState) : AppState :=
  { s with newItem := { s.newItem with nome := v } }

/-- The `onChange` handler of the new-item quantity input
(`Math.max(1, Number(v))`). -/
def setNewQuantidade (v : Rat) (s : AppState) : AppState :=
  { s with newItem := { s.newItem with quantidade := max 1 v } }

/-- The `onChange` handler of the new-item price input (no clamp). -/
def setNewPreco (v : Rat) (s : AppState) : AppState :=
  { s with newItem := { s.newItem with preco := v } }

/-- The `onChange` handler of the new-item category select. -/
def setNewCategoria (v : String) (s : AppState) : AppState :=
  { s with newItem := { s.newItem with categoria := v } }

/-- The `onChange` handler of the new-item suggester input. -/
def setNewSugeridoPor (v : String) (s : AppState) : AppState :=
  { s with newItem := { s.newItem with sugeridoPor := v } }

/-- The `onChange` handler of the edit-form name input: only acts while an
edit is in progress (the form is only rendered then). -/
def setEditNome (v : String) (s : AppState) : AppState :=
  match s.editingItem with
  | some e => { s with editingItem := some { e with nome := v } }
  | none => s

/-- The `onChange` handler of the edit-form quantity input
(`Math.max(1, Number(v))`). -/
def setEditQuantidade (v : Rat) (s : AppState) : AppState :=
  match s.editingItem with
  | some e => { s with editingItem := some { e with quantidade := max 1 v } }
  | none => s

/-- The `onChange` handler of the edit-form price input (no clamp). -/
def setEditPreco (v : Rat) (s : AppState) : AppState :=
  match s.editingItem with
  | some e => { s with editingItem := some { e with preco := v } }
  | none => s

/-- The `onChange` handler of the edit-form category select. -/
def setEditCategoria (v : String) (s : AppState) : AppState :=
  match s.editingItem with
  | some e => { s with editingItem := some { e with categoria := v } }
  | none => s

/-- The `onChange` handler of the edit-form suggester input. -/
def setEditSugeridoPor (v : String) (s : AppState) : AppState :=
  match s.editingItem with
  | some e => { s with editingItem := some { e with sugeridoPor := v } }
  | none => s

/-- The archived-view toggle button handler. -/
def toggleShowArchived (s : AppState) : AppState :=
  { s with showArchived := !s.showArchived }

/-- One user interaction event: every mutation the UI can trigger. The `add`
event carries the `Date.now()` reading of the moment it happens. -/
inductive Op where
  | add (now : Nat)
  | archive (id : Nat)
  | beginEdit (item : Item)
  | save
  | cancel
  | newNome (v : String)
  | newQuantidade (v : Rat)
  | newPreco (v : Rat)
  | newCategoria (v : String)
  | newSugeridoPor (v : String)
  | editNome (v : String)
  | editQuantidade (v : Rat)
  | editPreco (v : Rat)
  | editCategoria (v : String)
  | editSugeridoPor (v : String)
  | toggleView
deriving DecidableEq

/-- Dispatch an event to its handler. -/
def Op.apply : Op → AppState → AppState
  | .add now => addItem now
  | .archive id => archiveItem id
  | .beginEdit item => startEditing item
  | .save => saveEdit
  | .cancel => cancelEdit
  | .newNome v => setNewNome v
  | .newQuantidade v => setNewQuantidade v
  | .newPreco v => setNewPreco v
  | .newCategoria v => setNewCategoria v
  | .newSugeridoPor v => setNewSugeridoPor v
  | .editNome v => setEditNome v
  | .editQuantidade v => setEditQuantidade v
  | .editPreco v => setEditPreco v
  | .editCategoria v => setEditCategoria v
  | .editSugeridoPor v => setEditSugeridoPor v
  | .toggleView => toggleShowArchived

/-- Run a sequence of events from a state. -/
def runOps (ops : List Op) (s : AppState) : AppState :=
  ops.foldl (fun t op => op.apply t) s

/-- The clock reading an event consumes, if it is an `add`. -/
def Op.clock? : Op → Option Nat
  | .add n => some n
  | _ => none

/-- The clock readings consumed by the `add` events of a trace, in order. -/
def addClocks (ops : List Op) : List Nat := ops.filterMap Op.clock?

/-- Lower-cased name of an item, the key of both duplicate checks. -/
def lowNome (i : Item) : String := jsToLower i.nome

/-- The active-list uniqueness invariant: no two active items share a
case-insensitive name. -/
def namesUnique (l : List Item) : Prop := (l.map lowNome).Nodup

instance namesUniqueDec (l : List Item) : Decidable (namesUnique l) :=
  inferInstanceAs (Decidable (l.map lowNome).Nodup)

/-- The ids of every item ever created that is still held by the store,
active and archived together. -/
def idsOf (s : AppState) : List Nat := (s.items ++ s.archivedItems).map Item.id

/-- The creation-time invariant: ids are pairwise distinct over both lists
and active names are pairwise distinct case-insensitively. -/
def goodState (s : AppState) : Prop := (idsOf s).Nodup ∧ namesUnique s.items

instance goodStateDec (s : AppState) : Decidable (goodState s) :=
  inferInstanceAs (Decidable ((idsOf s).Nodup ∧ namesUnique s.items))

/-- Events that only update a field of the in-progress edit draft. -/
def isEditUpdate : Op → Bool
  | .editNome _ => true
  | .editQuantidade _ => true
  | .editPreco _ => true
  | .editCategoria _ => true
  | .editSugeridoPor _ => true
  | _ => false

/-- Concrete sample item used by witnesses. -/
def exMilk : Item :=
  { id := 1, nome := "Milk", quantidade := 2, preco := 3, categoria := "", sugeridoPor := "" }

/-- Concrete sample item used by witnesses. -/
def exBread : Item :=
  { id := 2, nome := "Bread", quantidade := 1, preco := 5, categoria := "", sugeridoPor := "" }

/-- Concrete state with two active items, used by witnesses. -/
def exState : AppState :=
  { items := [exMilk, exBread], archivedItems := [], editingItem := none,
    alert := none, showArchived := false, newItem := defaultDraft }

/-- Witness state: draft with an empty name. -/
def wEmptyName : AppState :=
  { exState with newItem := { defaultDraft with nome := "", preco := 5 } }

/-- Witness state: draft name "milk" colliding with the active "Milk". -/
def wDupDraft : AppState :=
  { exState with newItem := { defaultDraft with nome := "milk", preco := 1 } }

/-- Witness state: "Bread" archived, draft named "Bread" again. -/
def wBreadBack : AppState :=
  { initialState with
    archivedItems := [exBread],
    newItem := { defaultDraft with nome := "Bread", preco := 5 } }

/-- Witness state: a complete valid "Rice" draft over the sample state. -/
def wRiceDraft : AppState :=
  { exState with newItem := { nome := "Rice", quantidade := 4, preco := 2,
                              categoria := "Comidas", sugeridoPor := "Ana" } }

/-- Witness edit draft: the "Bread" item renamed to "milk". -/
def wBreadAsMilk : Item := { exBread with nome := "milk" }

/-- Witness state: editing "Bread" under the colliding name "milk". -/
def wEditCollide : AppState := { exState with editingItem := some wBreadAsMilk }

/-- Witness edit draft: full replacement for id 2 with a negative price. -/
def wRiceEdit : Item :=
  { id := 2, nome := "Rice", quantidade := 1, preco := -1, categoria := "",
    sugeridoPor := "Bea" }

/-- Witness state: editing item id 2 with the negative-price draft. -/
def wEditRiceState : AppState := { exState with editingItem := some wRiceEdit }

/-- Witness edit draft whose id 3 matches no active item. -/
def wOmelet : Item :=
  { id := 3, nome := "Omelet", quantidade := 2, preco := 2, categoria := "",
    sugeridoPor := "" }

/-- Witness state: item id 3 was archived while its edit is still open. -/
def wStaleState : AppState :=
  { exState with
    archivedItems := [{ id := 3, nome := "Egg", quantidade := 1, preco := 2,
                        categoria := "", sugeridoPor := "" }],
    editingItem := some wOmelet }

/-- Witness state: an edit session on the "Milk" item. -/
def wCancelState : AppState := { exState with editingItem := some exMilk }

lemma any_low_eq_iff (l : List Item) (x : String) :
    (l.any fun item => jsToLower item.nome == jsToLower x) = true ↔
      ∃ i ∈ l, jsToLower i.nome = jsToLower x := by
  simp [List.any_eq_true]

lemma any_collision_iff (l : List Item) (e : Item) :
    (l.any fun item => item.id != e.id && (jsToLower item.nome == jsToLower e.nome)) = true ↔
      ∃ i ∈ l, i.id ≠ e.id ∧ jsToLower i.nome = jsToLower e.nome := by
  simp [List.any_eq_true]

lemma not_validation_fail (s : AppState) (h1 : s.newItem.nome ≠ "")
    (h2 : 0 < s.newItem.preco) : ¬(s.newItem.nome = "" ∨ s.newItem.preco ≤ 0) := by
  push_neg
  exact ⟨h1, h2⟩

lemma map_id_of_pointwise (f : Item → Item) :
    ∀ l : List Item, (∀ i ∈ l, f i = i) → l.map f = l := by
  intro l
  induction l with
  | nil => intro _; rfl
  | cons x t ih =>
      intro h
      simp only [List.map_cons, h x (List.mem_cons_self x t),
        ih fun i hi => h i (List.mem_cons_of_mem x hi)]

lemma editUpdate_frame (op : Op) (h : isEditUpdate op = true) (s : AppState) :
    (op.apply s).items = s.items ∧ (op.apply s).archivedItems = s.archivedItems ∧
    (op.apply s).newItem = s.newItem := by
  cases op
  case editNome v => cases hE : s.editingItem <;> simp [Op.apply, setEditNome, hE]
  case editQuantidade v => cases hE : s.editingItem <;> simp [Op.apply, setEditQuantidade, hE]
  case editPreco v => cases hE : s.editingItem <;> simp [Op.apply, setEditPreco, hE]
  case editCategoria v => cases hE : s.editingItem <;> simp [Op.apply, setEditCategoria, hE]
  case editSugeridoPor v => cases hE : s.editingItem <;> simp [Op.apply, setEditSugeridoPor, hE]
  all_goals simp [isEditUpdate] at h

lemma runOps_nil (s : AppState) : runOps [] s = s := rfl

lemma runOps_cons (op : Op) (ops : List Op) (s : AppState) :
    runOps (op :: ops) s = runOps ops (op.apply s) := rfl

lemma clock?_eq_some {op : Op} {n : Nat} : op.clock? = some n ↔ op = Op.add n := by
  cases op <;> simp [Op.clock?]

lemma addClocks_cons_none {op : Op} (h : op.clock? = none) (rest : List Op) :
    addClocks (op :: rest) = addClocks rest := by
  simp [addClocks, List.filterMap_cons, h]

lemma addClocks_cons_some {op : Op} {n : Nat} (h : op.clock? = some n) (rest : List Op) :
    addClocks (op :: rest) = n :: addClocks rest := by
  simp [addClocks, List.filterMap_cons, h]

lemma addItem_characterize (now : Nat) (s : AppState) :
    addItem now s = showAlert "Por favor, preencha o nome e o preço do item." s ∨
    addItem now s = showAlert "Este item já existe na lista!" s ∨
    ((∀ i ∈ s.items, jsToLower i.nome ≠ jsToLower s.newItem.nome) ∧
      addItem now s = { s with items := s.items ++ [mkNewItem now s.newItem], newItem := defaultDraft }) := by
  unfold addItem
  by_cases h1 : s.newItem.nome = "" ∨ s.newItem.preco ≤ 0
  · left; rw [if_pos h1]
  · rw [if_neg h1]
    by_cases h2 : (s.items.any fun item =>
        jsToLower item.nome == jsToLower s.newItem.nome) = true
    · right; left; rw [if_pos h2]
    · right; right
      refine ⟨?_, by rw [if_neg h2]⟩
      intro i hi hlow
      exact h2 ((any_low_eq_iff s.items s.newItem.nome).mpr ⟨i, hi, hlow⟩)

lemma archiveItem_characterize (id : Nat) (s : AppState) :
    archiveItem id s = s ∨
    (∃ it, s.items.find? (fun i => i.id == id) = some it ∧
      archiveItem id s = { s with archivedItems := s.archivedItems ++ [it], items := s.items.filter (fun i => i.id != id) }) := by
  cases hfind : s.items.find? (fun i => i.id == id) with
  | none => left; simp only [archiveItem, hfind]
  | some it => right; exact ⟨it, rfl, by simp only [archiveItem, hfind]⟩

lemma saveEdit_characterize (s : AppState) :
    saveEdit s = s ∨
    saveEdit s = showAlert "Já existe outro item com este nome!" s ∨
    (∃ e, s.editingItem = some e ∧
      (∀ i ∈ s.items, i.id ≠ e.id → jsToLower i.nome ≠ jsToLower e.nome) ∧
      saveEdit s = { s with items := s.items.map (fun i => if i.id = e.id then e else i), editingItem := none }) := by
  cases hE : s.editingItem with
  | none => left; simp only [saveEdit, hE]
  | some e =>
      by_cases h2 : (s.items.any fun item => item.id != e.id &&
          (jsToLower item.nome == jsToLower e.nome)) = true
      · right; left; simp only [saveEdit, hE, if_pos h2]
      · right; right
        refine ⟨e, rfl, ?_, by simp only [saveEdit, hE, if_neg h2]⟩
        intro i hi hne hlow
        exact h2 ((any_collision_iff s.items e).mpr ⟨i, hi, hne, hlow⟩)

lemma find_filter_perm (a : Nat) (it : Item) :
    ∀ l : List Item, (l.map Item.id).Nodup →
      l.find? (fun i => i.id == a) = some it →
      l.Perm (it :: l.filter (fun i => i.id != a)) := by
  intro l
  induction l with
  | nil => intro _ h; simp at h
  | cons x t ih =>
      intro hnd hf
      have hx_notin : x.id ∉ t.map Item.id :=
        (List.nodup_cons.mp (by simpa using hnd)).1
      have hnd2 : (t.map Item.id).Nodup :=
        (List.nodup_cons.mp (by simpa using hnd)).2
      by_cases hx : x.id = a
      · have hxb : ((fun i => i.id == a) x) = true := by simpa using hx
        rw [@List.find?_cons_of_pos Item (fun i => i.id == a) x t hxb] at hf
        injection hf with hxit
        subst hxit
        have htf : (x :: t).filter (fun i => i.id != a) = t := by
          rw [List.filter_cons, if_neg (by simp [hx])]
          rw [List.filter_eq_self]
          intro i hi
          simp only [bne_iff_ne, ne_eq, decide_eq_true_eq]
          intro hia
          exact hx_notin (by rw [hx, ← hia]; exact List.mem_map_of_mem Item.id hi)
        rw [htf]
      · have hxb : ¬(((fun i => i.id == a) x) = true) := by simpa using hx
        rw [List.find?_cons_of_neg t hxb] at hf
        have hperm := ih hnd2 hf
        have hxf : (x :: t).filter (fun i => i.id != a) =
            x :: t.filter (fun i => i.id != a) := by
          rw [List.filter_cons, if_pos (by simpa using hx)]
        rw [hxf]
        exact (hperm.cons x).trans (List.Perm.swap it x _)

lemma replace_names_nodup (e : Item) :
    ∀ l : List Item, (l.map Item.id).Nodup → (l.map lowNome).Nodup →
      (∀ i ∈ l, i.id ≠ e.id → lowNome i ≠ lowNome e) →
      ((l.map fun i => if i.id = e.id then e else i).map lowNome).Nodup := by
  intro l
  induction l with
  | nil => intro _ _ _; simp
  | cons x t ih =>
      intro hid hnm hc
      have hxid : x.id ∉ t.map Item.id := (List.nodup_cons.mp (by simpa using hid)).1
      have hid2 : (t.map Item.id).Nodup := (List.nodup_cons.mp (by simpa using hid)).2
      have hxnm : lowNome x ∉ t.map lowNome := (List.nodup_cons.mp (by simpa using hnm)).1
      have hnm2 : (t.map lowNome).Nodup := (List.nodup_cons.mp (by simpa using hnm)).2
      by_cases hx : x.id = e.id
      · have htid : ∀ i ∈ t, i.id ≠ e.id := by
          intro i hi hie
          exact hxid (by rw [hx, ← hie]; exact List.mem_map_of_mem Item.id hi)
        have htmap : t.map (fun i => if i.id = e.id then e else i) = t :=
          map_id_of_pointwise _ t fun i hi => if_neg (htid i hi)
        rw [List.map_cons, if_pos hx, htmap, List.map_cons, List.nodup_cons]
        refine ⟨?_, hnm2⟩
        intro hmem
        obtain ⟨i, hi, hlow⟩ := List.mem_map.mp hmem
        exact hc i (List.mem_cons_of_mem x hi) (htid i hi) hlow
      · have hcx : lowNome x ≠ lowNome e := hc x (List.mem_cons_self x t) hx
        have ht := ih hid2 hnm2 fun i hi hne => hc i (List.mem_cons_of_mem x hi) hne
        rw [List.map_cons, if_neg hx, List.map_cons, List.nodup_cons]
        refine ⟨?_, ht⟩
        intro hmem
        obtain ⟨y, hy, hlow⟩ := List.mem_map.mp hmem
        obtain ⟨i, hi, rfl⟩ := List.mem_map.mp hy
        by_cases hie : i.id = e.id
        · rw [if_pos hie] at hlow
          exact hcx hlow.symm
        · rw [if_neg hie] at hlow
          exact hxnm (hlow ▸ List.mem_map_of_mem lowNome hi)

lemma items_ids_nodup {s : AppState} (hnd : (idsOf s).Nodup) :
    (s.items.map Item.id).Nodup := by
  rw [idsOf, List.map_append] at hnd
  exact hnd.of_append_left

lemma archive_lists_perm (a : Nat) (s : AppState) (hndI : (s.items.map Item.id).Nodup)
    (it : Item) (hfind : s.items.find? (fun i => i.id == a) = some it) :
    ((s.items.filter (fun i => i.id != a)) ++ (s.archivedItems ++ [it])).Perm
      (s.items ++ s.archivedItems) := by
  have hpermI := find_filter_perm a it s.items hndI hfind
  have p1 : (s.archivedItems ++ [it]).Perm (it :: s.archivedItems) :=
    List.perm_append_singleton it s.archivedItems
  have p2 := List.Perm.append_left (s.items.filter (fun i => i.id != a)) p1
  have p3 : ((s.items.filter (fun i => i.id != a)) ++ (it :: s.archivedItems)).Perm
      (it :: ((s.items.filter (fun i => i.id != a)) ++ s.archivedItems)) :=
    List.perm_middle
  have p4 := (hpermI.append_right s.archivedItems).symm
  exact (p2.trans p3).trans p4

lemma save_ids_eq (e : Item) (s : AppState) :
    ((s.items.map (fun i => if i.id = e.id then e else i) ++
      s.archivedItems).map Item.id) = idsOf s := by
  rw [idsOf, List.map_append, List.map_append, List.map_map]
  congr 1
  refine List.map_congr_left ?_
  intro i _
  by_cases hie : i.id = e.id <;> simp [Function.comp, hie]

lemma step_good (op : Op) (s : AppState) (hg : goodState s)
    (hfresh : ∀ n, op.clock? = some n → n ∉ idsOf s) :
    goodState (op.apply s) ∧
      ∀ m ∈ idsOf (op.apply s), m ∈ idsOf s ∨ op.clock? = some m := by
  obtain ⟨hnd, hnm⟩ := hg
  have hndI := items_ids_nodup hnd
  cases op with
  | add n =>
      rcases addItem_characterize n s with h | h | ⟨hno, h⟩
      · simp only [Op.apply]; rw [h]; exact ⟨⟨hnd, hnm⟩, fun m hm => Or.inl hm⟩
      · simp only [Op.apply]; rw [h]; exact ⟨⟨hnd, hnm⟩, fun m hm => Or.inl hm⟩
      · simp only [Op.apply]; rw [h]
        have hstep : ((s.items ++ [mkNewItem n s.newItem]) ++ s.archivedItems).Perm
            (mkNewItem n s.newItem :: (s.items ++ s.archivedItems)) := by
          rw [List.append_assoc]
          exact List.perm_middle
        have hfresh2 : n ∉ idsOf s := hfresh n rfl
        refine ⟨⟨?_, ?_⟩, ?_⟩
        · exact (hstep.map Item.id).nodup_iff.mpr (List.nodup_cons.mpr ⟨hfresh2, hnd⟩)
        · show ((s.items ++ [mkNewItem n s.newItem]).map lowNome).Nodup
          rw [List.map_append, List.nodup_append]
          refine ⟨hnm, List.nodup_singleton _, ?_⟩
          intro b hb hb2
          simp only [List.map_cons, List.map_nil, List.mem_singleton] at hb2
          obtain ⟨i, hi, hlow⟩ := List.mem_map.mp hb
          exact hno i hi (hlow.trans hb2)
        · intro m hm
          rcases List.mem_cons.mp ((hstep.map Item.id).mem_iff.mp hm) with h1 | h1
          · right; rw [h1]; rfl
          · left; exact h1
  | archive a =>
      rcases archiveItem_characterize a s with h | ⟨it, hfind, h⟩
      · simp only [Op.apply]; rw [h]; exact ⟨⟨hnd, hnm⟩, fun m hm => Or.inl hm⟩
      · simp only [Op.apply]; rw [h]
        have hstep := archive_lists_perm a s hndI it hfind
        refine ⟨⟨?_, ?_⟩, ?_⟩
        · exact (hstep.map Item.id).nodup_iff.mpr hnd
        · exact List.Nodup.sublist (List.Sublist.map lowNome (List.filter_sublist s.items)) hnm
        · exact fun m hm => Or.inl ((hstep.map Item.id).mem_iff.mp hm)
  | save =>
      rcases saveEdit_characterize s with h | h | ⟨e, hE, hno, h⟩
      · simp only [Op.apply]; rw [h]; exact ⟨⟨hnd, hnm⟩, fun m hm => Or.inl hm⟩
      · simp only [Op.apply]; rw [h]; exact ⟨⟨hnd, hnm⟩, fun m hm => Or.inl hm⟩
      · simp only [Op.apply]; rw [h]
        have hids := save_ids_eq e s
        refine ⟨⟨?_, ?_⟩, ?_⟩
        · show ((s.items.map (fun i => if i.id = e.id then e else i) ++
              s.archivedItems).map Item.id).Nodup
          rw [hids]; exact hnd
        · exact replace_names_nodup e s.items hndI hnm hno
        · intro m hm
          left
          rw [← hids]
          exact hm
  | beginEdit item => exact ⟨⟨hnd, hnm⟩, fun m hm => Or.inl hm⟩
  | cancel => exact ⟨⟨hnd, hnm⟩, fun m hm => Or.inl hm⟩
  | newNome v => exact ⟨⟨hnd, hnm⟩, fun m hm => Or.inl hm⟩
  | newQuantidade v => exact ⟨⟨hnd, hnm⟩, fun m hm => Or.inl hm⟩
  | newPreco v => exact ⟨⟨hnd, hnm⟩, fun m hm => Or.inl hm⟩
  | newCategoria v => exact ⟨⟨hnd, hnm⟩, fun m hm => Or.inl hm⟩
  | newSugeridoPor v => exact ⟨⟨hnd, hnm⟩, fun m hm => Or.inl hm⟩
  | toggleView => exact ⟨⟨hnd, hnm⟩, fun m hm => Or.inl hm⟩
  | editNome v =>
      cases hE : s.editingItem <;>
        (simp only [Op.apply, setEditNome, hE]; exact ⟨⟨hnd, hnm⟩, fun m hm => Or.inl hm⟩)
  | editQuantidade v =>
      cases hE : s.editingItem <;>
        (simp only [Op.apply, setEditQuantidade, hE]; exact ⟨⟨hnd, hnm⟩, fun m hm => Or.inl hm⟩)
  | editPreco v =>
      cases hE : s.editingItem <;>
        (simp only [Op.apply, setEditPreco, hE]; exact ⟨⟨hnd, hnm⟩, fun m hm => Or.inl hm⟩)
  | editCategoria v =>
      cases hE : s.editingItem <;>
        (simp only [Op.apply, setEditCategoria, hE]; exact ⟨⟨hnd, hnm⟩, fun m hm => Or.inl hm⟩)
  | editSugeridoPor v =>
      cases hE : s.editingItem <;>
        (simp only [Op.apply, setEditSugeridoPor, hE]; exact ⟨⟨hnd, hnm⟩, fun m hm => Or.inl hm⟩)
lemma runOps_good : ∀ (ops : List Op) (s : AppState), goodState s →
    (∀ m ∈ idsOf s, ∀ c ∈ addClocks ops, m < c) →
    (addClocks ops).Pairwise (· < ·) →
    goodState (runOps ops s) := by
  intro ops
  induction ops with
  | nil => intro s hg _ _; exact hg
  | cons op rest ih =>
      intro s hg hbound hpw
      rw [runOps_cons]
      have hfresh : ∀ n, op.clock? = some n → n ∉ idsOf s := by
        intro n hop hmem
        have hcl : n ∈ addClocks (op :: rest) := by
          rw [addClocks_cons_some hop]
          exact List.mem_cons_self n _
        exact lt_irrefl n (hbound n hmem n hcl)
      obtain ⟨hg2, hsub⟩ := step_good op s hg hfresh
      cases hcl : op.clock? with
      | none =>
          refine ih (op.apply s) hg2 ?_ ?_
          · intro m hm c hc
            rcases hsub m hm with hold | hsome
            · exact hbound m hold c (by rw [addClocks_cons_none hcl] at *; exact hc)
            · rw [hcl] at hsome; cases hsome
          · rw [addClocks_cons_none hcl rest] at hpw
            exact hpw
      | some n =>
          rw [addClocks_cons_some hcl rest] at hbound hpw
          have hpw2 := (List.pairwise_cons.mp hpw)
          refine ih (op.apply s) hg2 ?_ hpw2.2
          intro m hm c hc
          rcases hsub m hm with hold | hsome
          · exact hbound m hold c (List.mem_cons_of_mem n hc)
          · rw [hcl] at hsome
            injection hsome with hmn
            exact hmn ▸ hpw2.1 c hc

lemma foldl_add_eq_sum (f : Item → Rat) :
    ∀ (l : List Item) (a : Rat),
      l.foldl (fun t i => t + f i) a = a + (l.map f).sum := by
  intro l
  induction l with
  | nil => intro a; simp
  | cons x t ih =>
      intro a
      simp [List.foldl_cons, ih, add_assoc]

/-- Claim C8: the computed total is the sum of price times quantity over the
active list, is 0 on an empty active list, and ignores the archived list. -/
theorem calculateTotal_spec (s : AppState) :
    calculateTotal s = (s.items.map (fun i => i.preco * i.quantidade)).sum ∧
    (s.items = [] → calculateTotal s = 0) ∧
    (∀ l : List Item, calculateTotal { s with archivedItems := l } = calculateTotal s) := by
  refine ⟨?_, ?_, ?_⟩
  · simpa using foldl_add_eq_sum (fun i => i.preco * i.quantidade) s.items 0
  · intro h; simp [calculateTotal, h]
  · intro l; rfl

/-- Witness for C8 at a concrete two-item state: the total evaluates to
2*3 + 5*1 = 11, and a state with an empty active list has total 0. -/
theorem calculateTotal_spec_witness :
    calculateTotal
      { items := [{ id := 1, nome := "Milk", quantidade := 2, preco := 3,
                    categoria := "", sugeridoPor := "" },
                  { id := 2, nome := "Bread", quantidade := 1, preco := 5,
                    categoria := "", sugeridoPor := "" }],
        archivedItems := [], editingItem := none, alert := none,
        showArchived := false, newItem := defaultDraft } = 11 ∧
    calculateTotal initialState = 0 := by
  constructor
  · rw [(calculateTotal_spec _).1]
    norm_num
  · exact (calculateTotal_spec initialState).2.1 rfl

/-- Claim C2: the add operation rejects exactly when the draft name is empty
or the draft price is at most 0 (validation alert, checked first), or when
the draft name collides case-insensitively with an active item; archived
names never block; on rejection the whole state except the alert is
unchanged; otherwise the add goes through and changes the active list. -/
theorem addItem_reject_spec (now : Nat) (s : AppState) :
    (s.newItem.nome = "" ∨ s.newItem.preco ≤ 0 →
      addItem now s = { s with alert := some "Por favor, preencha o nome e o preço do item." }) ∧
    (s.newItem.nome ≠ "" → 0 < s.newItem.preco →
      (∃ i ∈ s.items, jsToLower i.nome = jsToLower s.newItem.nome) →
      addItem now s = { s with alert := some "Este item já existe na lista!" }) ∧
    (s.newItem.nome ≠ "" → 0 < s.newItem.preco →
      (∀ i ∈ s.items, jsToLower i.nome ≠ jsToLower s.newItem.nome) →
      (addItem now s).items ≠ s.items) := by
  refine ⟨?_, ?_, ?_⟩
  · intro h
    simp only [addItem, if_pos h]
    rfl
  · intro h1 h2 h3
    have hb : (s.items.any fun item => jsToLower item.nome == jsToLower s.newItem.nome) = true :=
      (any_low_eq_iff s.items s.newItem.nome).mpr h3
    simp only [addItem, if_neg (not_validation_fail s h1 h2), if_pos hb]
    rfl
  · intro h1 h2 h3
    have hb : ¬((s.items.any fun item => jsToLower item.nome == jsToLower s.newItem.nome) = true) := by
      rw [any_low_eq_iff]
      rintro ⟨i, hi, hlow⟩
      exact h3 i hi hlow
    simp only [addItem, if_neg (not_validation_fail s h1 h2), if_neg hb]
    intro heq
    have hlen := congrArg List.length heq
    simp at hlen

/-- Witness for C2: an empty-name draft is rejected with the validation
alert; a draft named "milk" is rejected against an active "Milk" with the
duplicate alert; a draft named "Bread" is accepted even though an archived
item is also named "Bread". -/
theorem addItem_reject_spec_witness :
    (addItem 9 wEmptyName =
      { wEmptyName with alert := some "Por favor, preencha o nome e o preço do item." }) ∧
    (addItem 9 wDupDraft =
      { wDupDraft with alert := some "Este item já existe na lista!" }) ∧
    (addItem 9 wBreadBack).items ≠ wBreadBack.items := by
  refine ⟨?_, ?_, ?_⟩
  · exact (addItem_reject_spec 9 wEmptyName).1 (by left; rfl)
  · exact (addItem_reject_spec 9 wDupDraft).2.1 (by decide) (by decide)
      ⟨exMilk, by decide, by decide⟩
  · exact (addItem_reject_spec 9 wBreadBack).2.2 (by decide) (by decide) (by decide)

/-- Claim C3: a draft passing both checks is appended as exactly one new
item at the end of the active list, fields copied from the draft and id the
creation clock reading, and the draft is reset to its defaults; every other
state field, the archived list included, is unchanged. -/
theorem addItem_success_spec (now : Nat) (s : AppState)
    (h1 : s.newItem.nome ≠ "") (h2 : 0 < s.newItem.preco)
    (h3 : ∀ i ∈ s.items, jsToLower i.nome ≠ jsToLower s.newItem.nome) :
    addItem now s =
      { s with
        items := s.items ++ [{ id := now, nome := s.newItem.nome,
                               quantidade := s.newItem.quantidade,
                               preco := s.newItem.preco,
                               categoria := s.newItem.categoria,
                               sugeridoPor := s.newItem.sugeridoPor }],
        newItem := { nome := "", quantidade := 1, preco := 0,
                     categoria := "", sugeridoPor := "" } } := by
  have hb : ¬((s.items.any fun item => jsToLower item.nome == jsToLower s.newItem.nome) = true) := by
    rw [any_low_eq_iff]
    rintro ⟨i, hi, hlow⟩
    exact h3 i hi hlow
  simp only [addItem, if_neg (not_validation_fail s h1 h2), if_neg hb]
  rfl

/-- Witness for C3: adding a "Rice" draft to the two-item sample state at
clock 7 appends the new item at the end and resets the draft. -/
theorem addItem_success_spec_witness :
    addItem 7 wRiceDraft =
      { wRiceDraft with
        items := wRiceDraft.items ++ [{ id := 7, nome := "Rice", quantidade := 4,
                                        preco := 2, categoria := "Comidas",
                                        sugeridoPor := "Ana" }],
        newItem := { nome := "", quantidade := 1, preco := 0,
                     categoria := "", sugeridoPor := "" } } :=
  addItem_success_spec 7 wRiceDraft (by decide) (by decide) (by decide)

/-- Claim C4: archiving an id found in the active list appends that exact
item to the end of the archived list and removes it from the active list;
archiving an id no active item has is a no-op on the whole state; a second
archive of the same id is always a no-op (no throw, no duplicate). -/
theorem archiveItem_spec (id : Nat) (s : AppState) :
    (∀ it, s.items.find? (fun i => i.id == id) = some it →
      it ∈ s.items ∧ it.id = id ∧
      archiveItem id s =
        { s with archivedItems := s.archivedItems ++ [it],
                 items := s.items.filter (fun i => i.id != id) }) ∧
    ((∀ i ∈ s.items, i.id ≠ id) → archiveItem id s = s) ∧
    archiveItem id (archiveItem id s) = archiveItem id s := by
  refine ⟨?_, ?_, ?_⟩
  · intro it hfind
    refine ⟨List.mem_of_find?_eq_some hfind, ?_, ?_⟩
    · have h := List.find?_some hfind
      simpa using h
    · simp only [archiveItem, hfind]
  · intro h
    have hfind : s.items.find? (fun i => i.id == id) = none := by
      rw [List.find?_eq_none]
      intro x hx
      simpa using h x hx
    simp only [archiveItem, hfind]
  · cases hfind : s.items.find? (fun i => i.id == id) with
    | none =>
        have hinner : archiveItem id s = s := by simp only [archiveItem, hfind]
        rw [hinner]
        exact hinner
    | some it =>
        have hinner : archiveItem id s =
            { s with archivedItems := s.archivedItems ++ [it],
                     items := s.items.filter (fun i => i.id != id) } := by
          simp only [archiveItem, hfind]
        have hnone : (s.items.filter (fun i => i.id != id)).find? (fun i => i.id == id) = none := by
          rw [List.find?_eq_none]
          intro x hx
          have hne := (List.mem_filter.mp hx).2
          simp only [bne_iff_ne, ne_eq] at hne
          simpa using hne
        rw [hinner]
        simp only [archiveItem]
        simp only [hnone]

/-- Witness for C4: archiving id 1 moves the "Milk" item to the archived
list, archiving id 9 is a no-op, and archiving twice equals archiving once. -/
theorem archiveItem_spec_witness :
    (exMilk ∈ exState.items ∧ exMilk.id = 1 ∧
      archiveItem 1 exState =
        { exState with archivedItems := exState.archivedItems ++ [exMilk],
                       items := exState.items.filter (fun i => i.id != 1) }) ∧
    (archiveItem 9 exState = exState) ∧
    archiveItem 1 (archiveItem 1 exState) = archiveItem 1 exState := by
  refine ⟨?_, ?_, ?_⟩
  · exact (archiveItem_spec 1 exState).1 exMilk (by decide)
  · exact (archiveItem_spec 9 exState).2.1 (by decide)
  · exact (archiveItem_spec 1 exState).2.2

/-- Claim C5: saving an edit whose draft name collides case-insensitively
with a different-id active item only sets the duplicate alert: the active
list is untouched and the edit session stays open with the attempted draft
intact. -/
theorem saveEdit_collision_spec (s : AppState) (e : Item)
    (he : s.editingItem = some e)
    (hc : ∃ i ∈ s.items, i.id ≠ e.id ∧ jsToLower i.nome = jsToLower e.nome) :
    saveEdit s = { s with alert := some "Já existe outro item com este nome!" } := by
  have hb := (any_collision_iff s.items e).mpr hc
  simp only [saveEdit, he, if_pos hb, showAlert]

/-- Witness for C5: editing the "Bread" item to be named "milk" collides
with the active "Milk" item; the save only sets the alert and the session
stays open. -/
theorem saveEdit_collision_spec_witness :
    saveEdit wEditCollide =
      { wEditCollide with alert := some "Já existe outro item com este nome!" } :=
  saveEdit_collision_spec wEditCollide wBreadAsMilk rfl
    ⟨exMilk, by decide, by decide, by decide⟩

/-- Claim C6: saving an edit with a non-colliding name replaces the active
item carrying the draft's id by the full draft and closes the session; no
other validation happens, so in particular a non-positive draft price is
committed (the witness commits price -1). -/
theorem saveEdit_success_spec (s : AppState) (e : Item)
    (he : s.editingItem = some e)
    (hc : ∀ i ∈ s.items, i.id ≠ e.id → jsToLower i.nome ≠ jsToLower e.nome) :
    saveEdit s =
      { s with items := s.items.map (fun item => if item.id = e.id then e else item),
               editingItem := none } := by
  have hb : ¬((s.items.any fun item =>
      item.id != e.id && (jsToLower item.nome == jsToLower e.nome)) = true) := by
    rw [any_collision_iff]
    rintro ⟨i, hi, hne, hlow⟩
    exact hc i hi hne hlow
  simp only [saveEdit, he, if_neg hb]

/-- Witness for C6: committing an edit draft with price -1 and name "Rice"
replaces the "Bread" item wholesale and closes the session, with no price
validation. -/
theorem saveEdit_success_spec_witness :
    saveEdit wEditRiceState =
      { wEditRiceState with
        items := wEditRiceState.items.map (fun item =>
          if item.id = wRiceEdit.id then wRiceEdit else item),
        editingItem := none } :=
  saveEdit_success_spec wEditRiceState wRiceEdit rfl (by decide)

/-- Claim C7: after any sequence of edit-draft field updates, cancel leaves
the active list, the archived list and the new-item draft exactly as before
the session and puts the session back to idle. -/
theorem cancelEdit_spec (s : AppState) (ops : List Op)
    (h : ∀ op ∈ ops, isEditUpdate op = true) :
    (cancelEdit (runOps ops s)).items = s.items ∧
    (cancelEdit (runOps ops s)).archivedItems = s.archivedItems ∧
    (cancelEdit (runOps ops s)).newItem = s.newItem ∧
    (cancelEdit (runOps ops s)).editingItem = none := by
  induction ops generalizing s with
  | nil => exact ⟨rfl, rfl, rfl, rfl⟩
  | cons op rest ih =>
      have hop : isEditUpdate op = true := h op (List.mem_cons_self op rest)
      have hframe := editUpdate_frame op hop s
      have hrest := ih (op.apply s) fun o ho => h o (List.mem_cons_of_mem op ho)
      rw [runOps_cons]
      exact ⟨hrest.1.trans hframe.1, hrest.2.1.trans hframe.2.1,
             hrest.2.2.1.trans hframe.2.2, hrest.2.2.2⟩

/-- Witness for C7: renaming the draft to "zzz" and zeroing its price, then
cancelling, leaves the sample state's lists and new-item draft unchanged. -/
theorem cancelEdit_spec_witness :
    (cancelEdit (runOps [Op.editNome "zzz", Op.editPreco 0] wCancelState)).items =
      wCancelState.items ∧
    (cancelEdit (runOps [Op.editNome "zzz", Op.editPreco 0] wCancelState)).archivedItems =
      wCancelState.archivedItems ∧
    (cancelEdit (runOps [Op.editNome "zzz", Op.editPreco 0] wCancelState)).newItem =
      wCancelState.newItem ∧
    (cancelEdit (runOps [Op.editNome "zzz", Op.editPreco 0] wCancelState)).editingItem = none :=
  cancelEdit_spec wCancelState [Op.editNome "zzz", Op.editPreco 0] (by decide)

/-- Claim C10: saving an edit whose id matches no active item (and whose
name does not collide) changes nothing but the session, which goes idle:
the draft is silently dropped and the item is not re-added. -/
theorem saveEdit_stale_spec (s : AppState) (e : Item)
    (he : s.editingItem = some e)
    (hid : ∀ i ∈ s.items, i.id ≠ e.id)
    (hname : ∀ i ∈ s.items, jsToLower i.nome ≠ jsToLower e.nome) :
    saveEdit s = { s with editingItem := none } := by
  have hb : ¬((s.items.any fun item =>
      item.id != e.id && (jsToLower item.nome == jsToLower e.nome)) = true) := by
    rw [any_collision_iff]
    rintro ⟨i, hi, _, hlow⟩
    exact hname i hi hlow
  simp only [saveEdit, he, if_neg hb]
  rw [map_id_of_pointwise _ s.items fun i hi => if_neg (hid i hi)]

/-- Witness for C10: the edited item (id 3) was archived during the session;
saving discards the draft, leaves both lists unchanged and goes idle. -/
theorem saveEdit_stale_spec_witness :
    saveEdit wStaleState = { wStaleState with editingItem := none } :=
  saveEdit_stale_spec wStaleState wOmelet rfl (by decide) (by decide)

/-- Claim C1 counterexample: a reachable state (two adds whose `Date.now()`
readings coincide, so two active items share id 5, followed by an edit of
one of them) satisfies the active-name uniqueness invariant right before
save-edit, yet save-edit breaks it: the map replaces both id-5 items by the
draft, leaving two active items named "c". So not every mutation preserves
the invariant from the empty store. -/
theorem activeNames_counterexample :
    namesUnique ((runOps [Op.newNome "a", Op.newPreco 1, Op.add 5, Op.newNome "b",
      Op.newPreco 1, Op.add 5,
      Op.beginEdit { id := 5, nome := "a", quantidade := 1, preco := 1,
                     categoria := "", sugeridoPor := "" },
      Op.editNome "c"] initialState).items) ∧
    ¬ namesUnique ((runOps [Op.newNome "a", Op.newPreco 1, Op.add 5, Op.newNome "b",
      Op.newPreco 1, Op.add 5,
      Op.beginEdit { id := 5, nome := "a", quantidade := 1, preco := 1,
                     categoria := "", sugeridoPor := "" },
      Op.editNome "c", Op.save] initialState).items) := by decide

/-- Claim C1 as amended: provided the clock readings consumed by the adds of
a trace are strictly increasing (so ids never collide), every state reached
from the empty store satisfies the active-list case-insensitive name
uniqueness invariant; and the archived list is indeed not subject to it — a
legally-clocked trace reaches archived items "Bread" and "bread". -/
theorem activeNames_unique_trace :
    (∀ ops : List Op, (addClocks ops).Pairwise (· < ·) →
      namesUnique (runOps ops initialState).items) ∧
    ¬ ((runOps [Op.newNome "Bread", Op.newPreco 5, Op.add 1, Op.archive 1,
        Op.newNome "bread", Op.newPreco 5, Op.add 2, Op.archive 2]
        initialState).archivedItems.map lowNome).Nodup := by
  constructor
  · intro ops hpw
    refine (runOps_good ops initialState (by decide) ?_ hpw).2
    intro m hm
    simp [idsOf, initialState] at hm
  · decide

/-- Witness for the amended C1: on a strictly-clocked trace that adds "Milk"
and then attempts the colliding "milk" (rejected), active names stay
unique. -/
theorem activeNames_unique_trace_witness :
    namesUnique ((runOps [Op.newNome "Milk", Op.newPreco 3, Op.add 1,
      Op.newNome "milk", Op.newPreco 1, Op.add 2] initialState).items) :=
  activeNames_unique_trace.1 _ (by decide)

/-- Claim C9 counterexample: two adds with the same `Date.now()` reading 7
(two events inside the same millisecond) create two items that both carry
id 7 — ids are not unique across all items ever created. -/
theorem itemIds_counterexample :
    (((runOps [Op.newNome "x", Op.newPreco 2, Op.add 7, Op.newNome "y", Op.newPreco 3,
        Op.add 7] initialState).items ++
      (runOps [Op.newNome "x", Op.newPreco 2, Op.add 7, Op.newNome "y", Op.newPreco 3,
        Op.add 7] initialState).archivedItems).map Item.id) = [7, 7] ∧
    ¬ (idsOf (runOps [Op.newNome "x", Op.newPreco 2, Op.add 7, Op.newNome "y",
        Op.newPreco 3, Op.add 7] initialState)).Nodup := by decide

/-- Claim C9 as amended: if the clock readings consumed by the adds of a
trace are strictly increasing, then no two items in the union of the active
and archived lists share an id; and no operation other than add ever
changes the multiset of ids held by the store (ids are immutable after
creation). -/
theorem itemIds_spec :
    (∀ ops : List Op, (addClocks ops).Pairwise (· < ·) →
      (idsOf (runOps ops initialState)).Nodup) ∧
    (∀ (op : Op) (s : AppState), op.clock? = none → (idsOf s).Nodup →
      (idsOf (op.apply s)).Perm (idsOf s)) := by
  constructor
  · intro ops hpw
    refine (runOps_good ops initialState (by decide) ?_ hpw).1
    intro m hm
    simp [idsOf, initialState] at hm
  · intro op s hcl hnd
    have hndI := items_ids_nodup hnd
    cases op with
    | add n => simp [Op.clock?] at hcl
    | archive a =>
        rcases archiveItem_characterize a s with h | ⟨it, hfind, h⟩
        · simp only [Op.apply]; rw [h]
        · simp only [Op.apply]; rw [h]
          exact (archive_lists_perm a s hndI it hfind).map Item.id
    | save =>
        rcases saveEdit_characterize s with h | h | ⟨e, hE, hno, h⟩
        · simp only [Op.apply]; rw [h]
        · simp only [Op.apply]; rw [h]; exact List.Perm.refl _
        · simp only [Op.apply]; rw [h]
          show ((s.items.map (fun i => if i.id = e.id then e else i) ++
              s.archivedItems).map Item.id).Perm (idsOf s)
          rw [save_ids_eq e s]
    | beginEdit item => exact List.Perm.refl _
    | cancel => exact List.Perm.refl _
    | newNome v => exact List.Perm.refl _
    | newQuantidade v => exact List.Perm.refl _
    | newPreco v => exact List.Perm.refl _
    | newCategoria v => exact List.Perm.refl _
    | newSugeridoPor v => exact List.Perm.refl _
    | toggleView => exact List.Perm.refl _
    | editNome v =>
        cases hE : s.editingItem <;>
          (simp only [Op.apply, setEditNome, hE]; exact List.Perm.refl _)
    | editQuantidade v =>
        cases hE : s.editingItem <;>
          (simp only [Op.apply, setEditQuantidade, hE]; exact List.Perm.refl _)
    | editPreco v =>
        cases hE : s.editingItem <;>
          (simp only [Op.apply, setEditPreco, hE]; exact List.Perm.refl _)
    | editCategoria v =>
        cases hE : s.editingItem <;>
          (simp only [Op.apply, setEditCategoria, hE]; exact List.Perm.refl _)
    | editSugeridoPor v =>
        cases hE : s.editingItem <;>
          (simp only [Op.apply, setEditSugeridoPor, hE]; exact List.Perm.refl _)

/-- Witness for the amended C9: a strictly-clocked add-add-archive trace
ends with all ids distinct, and archiving id 1 from the sample state only
permutes the stored ids. -/
theorem itemIds_spec_witness :
    (idsOf (runOps [Op.newNome "Milk", Op.newPreco 3, Op.add 1, Op.newNome "Bread",
      Op.newPreco 5, Op.add 2, Op.archive 1] initialState)).Nodup ∧
    (idsOf (Op.apply (Op.archive 1) exState)).Perm (idsOf exState) :=
  ⟨itemIds_spec.1 _ (by decide), itemIds_spec.2 (Op.archive 1) exState rfl (by decide)⟩

end Pardinho
